import Mathlib

/-!
# Shallow embedding of `ElasticIndexReadContext`

This file embeds the control flow of VoltDB's
`src/ee/storage/ElasticIndexReadContext.cpp` in Lean 4 and proves the
behavioural claims of its specification against that embedding.

The context drives a two-phase "read then clear" protocol over an elastic
hash index: a read activation parses a `"low:high"` hash-range predicate and
builds a range iterator; repeated `handleStreamMore` calls drain that
iterator into a single capacity-bounded output stream; once the iterator is
observed exhausted the context becomes *materialized*, which gates the clear
activation that bulk-deletes the streamed tuples and erases index entries.

External collaborators (the tuple output stream, `MiscUtil::splitToTwoString`
and `boost::lexical_cast`, the index iterator factory) are not under the
verified source tree; they are modelled at their interface as the spec
describes them, and each such definition says so in its doc comment.
-/

/-- A table tuple, modelled by an identity and a serialized size in bytes:
the only attributes the drained control flow depends on. -/
structure TableTuple where
  tid : Nat
  size : Nat
deriving DecidableEq, Repr

/-- `ElasticIndexHashRange`: a pair of signed 64-bit hash bounds, as built by
`parseHashRange` from the `"<from>:<to>"` predicate. -/
structure ElasticIndexHashRange where
  rFrom : Int
  rTo : Int
deriving DecidableEq, Repr

/-- Model of `ElasticIndexTupleRangeIterator`: the tuples whose hash falls in
the requested range, in index iteration order, plus a cursor.  `next`
yields the tuple at the cursor and advances; `reset` (in
`deleteStreamedTuples`) returns the cursor to the start. -/
structure ElasticIndexTupleRangeIterator where
  tuples : List TableTuple
  pos : Nat
deriving DecidableEq, Repr

/-- The slice of `PersistentTableSurgeon` this context consumes: the two
activation preconditions and the iterator factory
`getIndexTupleRangeIterator`, modelled as the list of indexed tuples each
hash range covers. -/
structure PersistentTableSurgeon where
  hasIndex : Bool
  indexingComplete : Bool
  indexTuples : ElasticIndexHashRange → List TableTuple

/-- The stream types this context distinguishes (from `TableStreamType`). -/
inductive TableStreamType where
  | TABLE_STREAM_SNAPSHOT
  | TABLE_STREAM_RECOVERY
  | TABLE_STREAM_ELASTIC_INDEX
  | TABLE_STREAM_ELASTIC_INDEX_READ
  | TABLE_STREAM_ELASTIC_INDEX_CLEAR
  | TABLE_STREAM_NONE
deriving DecidableEq, Repr

/-- `TableStreamerContext::ActivationReturnCode`. -/
inductive ActivationReturnCode where
  | ACTIVATION_SUCCEEDED
  | ACTIVATION_FAILED
  | ACTIVATION_UNSUPPORTED
deriving DecidableEq, Repr

/-- The context state: the captured predicate list, the optional range
iterator (`NULL` before read activation), and the materialization flag. -/
structure ElasticIndexReadContext where
  surgeon : PersistentTableSurgeon
  m_predicateStrings : List String
  m_iter : Option ElasticIndexTupleRangeIterator
  m_materialized : Bool

/-- The constructor (lines 32–41): captures the predicate strings, leaves the
iterator unset and starts with `m_materialized = false`. -/
def ElasticIndexReadContext.construct (surgeon : PersistentTableSurgeon)
    (predicateStrings : List String) : ElasticIndexReadContext :=
  { surgeon := surgeon
    m_predicateStrings := predicateStrings
    m_iter := none
    m_materialized := false }

/-- Split a character list on every occurrence of `delim`. -/
def splitOnChar (delim : Char) : List Char → List (List Char)
  | [] => [[]]
  | c :: cs =>
    let r := splitOnChar delim cs
    if c = delim then [] :: r
    else
      match r with
      | [] => [[c]]
      | g :: gs => (c :: g) :: gs

/-- Modelled from the spec: `MiscUtil::splitToTwoString` lives in
`src/ee/common/MiscUtil.cpp`, which is not under the verified tree.  §4.1/§8
require that the predicate "split into exactly two colon-delimited parts"
and that `"10:20:30"` fails, so the model splits on every delimiter and the
caller checks for exactly two parts. -/
def splitToTwoString (s : String) (delim : Char) : List String :=
  (splitOnChar delim s.data).map (fun cs => String.mk cs)

/-- Value of a non-empty all-digit character list, `none` otherwise. -/
def parseDecNat (cs : List Char) : Option Nat :=
  if cs.isEmpty then none
  else if cs.all (fun c => c.isDigit) then
    some (cs.foldl (fun n c => n * 10 + (c.toNat - 48)) 0)
  else none

/-- Modelled from the spec: `boost::lexical_cast<int64_t>` is third-party.
§4.1 requires each part to be "a valid decimal 64-bit signed integer", so the
model accepts an optional leading minus sign followed by decimal digits,
with the value restricted to the signed 64-bit range. -/
def parseInt64 (s : String) : Option Int :=
  match s.data with
  | '-' :: cs =>
    match parseDecNat cs with
    | some n => if (n : Int) ≤ 2 ^ 63 then some (-(n : Int)) else none
    | none => none
  | cs =>
    match parseDecNat cs with
    | some n => if (n : Int) < 2 ^ 63 then some (n : Int) else none
    | none => none

/-- `parseHashRange` (lines 182–206): requires exactly one predicate string
splitting into exactly two colon-delimited parts, both parsing as int64.
Failure is a returned error (`none`), never an exception; no ordering check
between the two bounds is performed. -/
def parseHashRange (predicateStrings : List String) :
    Option ElasticIndexHashRange :=
  match predicateStrings with
  | [p] =>
    match splitToTwoString p ':' with
    | [lo, hi] =>
      match parseInt64 lo, parseInt64 hi with
      | some l, some h => some ⟨l, h⟩
      | _, _ => none
    | _ => none
  | _ => none

/-- Modelled from the spec: `TupleOutputStream` (in `src/ee/common/`, not
under the verified tree) is a capacity-bounded byte buffer whose per-row
write primitive serializes one tuple and reports whether the buffer is now
full — the yield signal of §4.3.  The model tracks the byte position, the
rows written, and whether the stream was opened. -/
structure TupleOutputStream where
  maxBytes : Nat
  bytes : Nat
  rows : List TableTuple
  opened : Bool
deriving DecidableEq, Repr

/-- Write one row; the returned `Bool` is the yield signal (buffer full). -/
def TupleOutputStream.writeRow (s : TupleOutputStream) (t : TableTuple) :
    TupleOutputStream × Bool :=
  let s1 := { s with bytes := s.bytes + t.size, rows := s.rows ++ [t] }
  (s1, decide (s.maxBytes ≤ s1.bytes))

/-- The stream's current write position (`TupleOutputStream::position()`). -/
def TupleOutputStream.position (s : TupleOutputStream) : Int := (s.bytes : Int)

/-- Observable effects of `deleteStreamedTuples` on its collaborators, in
program order: token scope entry, iterator reset, one deletion per tuple,
index-entry erasure, token scope exit. -/
inductive DeleteEvent where
  | acquireBulkDeleteToken
  | resetIterator
  | deleteTuple (t : TableTuple)
  | eraseIndexEntries
  | releaseBulkDeleteToken
deriving DecidableEq, Repr

/-- `deleteStreamedTuples` (lines 211–225): construct the scoped bulk-delete
token, reset the iterator, delete every tuple the iterator then yields,
erase the index entries, release the token at scope exit.  The C++
dereferences `m_iter` unconditionally; a context without an iterator is
undefined behaviour there, modelled as `none`. -/
def ElasticIndexReadContext.deleteStreamedTuples
    (c : ElasticIndexReadContext) :
    Option (ElasticIndexReadContext × List DeleteEvent) :=
  match c.m_iter with
  | none => none
  | some it =>
    some ({ c with m_iter := some { it with pos := it.tuples.length } },
      [DeleteEvent.acquireBulkDeleteToken, DeleteEvent.resetIterator]
        ++ it.tuples.map DeleteEvent.deleteTuple
        ++ [DeleteEvent.eraseIndexEntries,
            DeleteEvent.releaseBulkDeleteToken])

/-- Result of `handleActivation`: the updated context, the return code, and
the deletion events performed (empty except on a successful clear). -/
structure ActivationResult where
  ctx : ElasticIndexReadContext
  code : ActivationReturnCode
  events : List DeleteEvent

/-- `handleActivation` (lines 52–89): reject read reactivation; require the
index to exist and be fully built; on a read activation parse the predicate
and build the range iterator; on a clear activation require `m_materialized`
and run `deleteStreamedTuples`; any other stream type is unsupported.
`none` only on the undefined-behaviour path inside `deleteStreamedTuples`. -/
def ElasticIndexReadContext.handleActivation (c : ElasticIndexReadContext)
    (streamType : TableStreamType) (reactivate : Bool) :
    Option ActivationResult :=
  if reactivate ∧
      streamType = TableStreamType.TABLE_STREAM_ELASTIC_INDEX_READ then
    some ⟨c, ActivationReturnCode.ACTIVATION_FAILED, []⟩
  else if c.surgeon.hasIndex = false ∨ c.surgeon.indexingComplete = false then
    some ⟨c, ActivationReturnCode.ACTIVATION_FAILED, []⟩
  else if streamType = TableStreamType.TABLE_STREAM_ELASTIC_INDEX_READ then
    match parseHashRange c.m_predicateStrings with
    | none => some ⟨c, ActivationReturnCode.ACTIVATION_FAILED, []⟩
    | some range =>
      some ⟨{ c with m_iter := some ⟨c.surgeon.indexTuples range, 0⟩ },
            ActivationReturnCode.ACTIVATION_SUCCEEDED, []⟩
  else if streamType = TableStreamType.TABLE_STREAM_ELASTIC_INDEX_CLEAR then
    if c.m_materialized = false then
      some ⟨c, ActivationReturnCode.ACTIVATION_FAILED, []⟩
    else
      match c.deleteStreamedTuples with
      | none => none
      | some (c2, evs) =>
        some ⟨c2, ActivationReturnCode.ACTIVATION_SUCCEEDED, evs⟩
  else
    some ⟨c, ActivationReturnCode.ACTIVATION_UNSUPPORTED, []⟩

/-- `handleDeactivation` (lines 94–108): keep the context alive after a read
stream, allow discarding after a clear stream, and throw a fatal exception
(modelled as `none`) for every other stream type.  The body reads nothing
but the stream type, so the model takes only that. -/
def ElasticIndexReadContext.handleDeactivation
    (streamType : TableStreamType) : Option Bool :=
  match streamType with
  | TableStreamType.TABLE_STREAM_ELASTIC_INDEX_READ => some true
  | TableStreamType.TABLE_STREAM_ELASTIC_INDEX_CLEAR => some false
  | _ => none

/-- The inner drain loop of `handleStreamMore` (lines 150–161): write the
current tuple `t`; if the stream signalled full, stop with result 1 (more
remains); otherwise advance the iterator — exhaustion stops with result 0,
else loop.  `rest` is the list of tuples the iterator has not yet yielded;
the returned `Nat` is how many of them the loop consumed. -/
def streamLoop (s : TupleOutputStream) (t : TableTuple)
    (rest : List TableTuple) : TupleOutputStream × Nat × Int :=
  if (s.writeRow t).2 then ((s.writeRow t).1, 0, 1)
  else
    match rest with
    | [] => ((s.writeRow t).1, 0, 0)
    | t2 :: rest2 =>
      let r := streamLoop (s.writeRow t).1 t2 rest2
      (r.1, r.2.1 + 1, r.2.2)

/-- Result of `handleStreamMore`: the updated context, the (borrowed) output
stream list, the appended `retPositions`, and the int64 return value. -/
structure StreamMoreResult where
  ctx : ElasticIndexReadContext
  outputStreams : List TupleOutputStream
  retPositions : List Int
  result : Int

/-- `handleStreamMore` (lines 114–177): `-1` when the context was never
activated (no iterator) or the caller supplied other than exactly one output
stream; otherwise fetch the next tuple — if none, result 0 without opening
the stream; else open the stream and run the drain loop.  Whenever streaming
was attempted the stream's final position is appended to `retPositions`, and
a non-positive result sets `m_materialized`. -/
def ElasticIndexReadContext.handleStreamMore (c : ElasticIndexReadContext)
    (outputStreams : List TupleOutputStream) (retPositions : List Int) :
    StreamMoreResult :=
  match c.m_iter with
  | none => ⟨c, outputStreams, retPositions, -1⟩
  | some it =>
    match outputStreams with
    | [s] =>
      match it.tuples.drop it.pos with
      | [] =>
        ⟨{ c with m_materialized := true }, [s],
          retPositions ++ [s.position], 0⟩
      | t :: rest =>
        let res := streamLoop { s with opened := true } t rest
        ⟨{ c with
              m_iter := some { it with pos := it.pos + 1 + res.2.1 }
              m_materialized :=
                if res.2.2 ≤ 0 then true else c.m_materialized },
          [res.1], retPositions ++ [res.1.position], res.2.2⟩
    | _ => ⟨c, outputStreams, retPositions, -1⟩

/-- A fresh, empty output stream of byte capacity `cap`. -/
def freshStream (cap : Nat) : TupleOutputStream := ⟨cap, 0, [], false⟩

/-- Drive `handleStreamMore` repeatedly — a fresh single output stream of
capacity `cap` on every call, as the streaming caller does — until the
result is no longer 1 (more remains) or `fuel` runs out (result `-2`, never
reached with sufficient fuel).  Returns the rows written by each call, the
final context and the final result. -/
def drainRun (cap : Nat) : Nat → ElasticIndexReadContext →
    List (List TableTuple) × ElasticIndexReadContext × Int
  | 0, c => ([], c, -2)
  | Nat.succ fuel, c =>
    let r := c.handleStreamMore [freshStream cap] []
    let written := (r.outputStreams.headD (freshStream cap)).rows
    if r.result = 1 then
      let rec2 := drainRun cap fuel r.ctx
      (written :: rec2.1, rec2.2.1, rec2.2.2)
    else ([written], r.ctx, r.result)

-- Concrete fixtures shared by witness theorems.

/-- Three two-byte tuples standing for the rows of a hash range. -/
def tsW : List TableTuple := [⟨1, 2⟩, ⟨2, 2⟩, ⟨3, 2⟩]

/-- A surgeon with a complete index serving `tsW` for every range. -/
def surgeonW : PersistentTableSurgeon := ⟨true, true, fun _ => tsW⟩

/-- A freshly constructed, unactivated context. -/
def ctx0W : ElasticIndexReadContext :=
  ElasticIndexReadContext.construct surgeonW ["0:10"]

/-- The context after a successful read activation. -/
def ctxReadW : ElasticIndexReadContext :=
  ⟨surgeonW, ["0:10"], some ⟨tsW, 0⟩, false⟩

/-- A fully drained (materialized) context. -/
def ctxMatW : ElasticIndexReadContext :=
  ⟨surgeonW, ["0:10"], some ⟨tsW, 3⟩, true⟩


-- Helper lemmas about the drain loop and handleStreamMore.

theorem writeRow_rows (s : TupleOutputStream) (t : TableTuple) :
    ((s.writeRow t).1).rows = s.rows ++ [t] := rfl

/-- Behaviour of the inner drain loop: it writes `t` followed by the first
`k` tuples of `rest` (where `k` is the consumed count it returns), consumes
at most all of `rest`, returns only 0 or 1, and returns 0 only when it
consumed all of `rest` without the stream signalling full. -/
theorem streamLoop_spec (rest : List TableTuple) :
    ∀ (s : TupleOutputStream) (t : TableTuple),
      (streamLoop s t rest).1.rows
          = s.rows ++ t :: rest.take (streamLoop s t rest).2.1 ∧
      (streamLoop s t rest).2.1 ≤ rest.length ∧
      ((streamLoop s t rest).2.2 = 0 ∨ (streamLoop s t rest).2.2 = 1) ∧
      ((streamLoop s t rest).2.2 = 0 →
        (streamLoop s t rest).2.1 = rest.length) := by
  induction rest with
  | nil =>
    intro s t
    by_cases h : s.maxBytes ≤ s.bytes + t.size
    · simp [streamLoop, TupleOutputStream.writeRow, h]
    · simp [streamLoop, TupleOutputStream.writeRow, h]
  | cons t2 rest2 ih =>
    intro s t
    by_cases h : s.maxBytes ≤ s.bytes + t.size
    · simp [streamLoop, TupleOutputStream.writeRow, h]
    · obtain ⟨hrows, hk, hr, hdone⟩ := ih (s.writeRow t).1 t2
      simp only [streamLoop, TupleOutputStream.writeRow, h, decide_eq_true_eq,
        if_false]
      refine ⟨?_, ?_, ?_, ?_⟩
      · simpa [TupleOutputStream.writeRow, List.append_assoc] using hrows
      · simpa using Nat.add_le_add_right hk 1
      · simpa [TupleOutputStream.writeRow] using hr
      · intro h0
        simpa [TupleOutputStream.writeRow] using
          hdone (by simpa [TupleOutputStream.writeRow] using h0)

theorem handleStreamMore_noIter (c : ElasticIndexReadContext)
    (streams : List TupleOutputStream) (ps : List Int)
    (h : c.m_iter = none) :
    c.handleStreamMore streams ps = ⟨c, streams, ps, -1⟩ := by
  simp [ElasticIndexReadContext.handleStreamMore, h]

theorem handleStreamMore_badCount (c : ElasticIndexReadContext)
    (streams : List TupleOutputStream) (ps : List Int)
    (h : streams.length ≠ 1) :
    c.handleStreamMore streams ps = ⟨c, streams, ps, -1⟩ := by
  match hit : c.m_iter with
  | none => simp [ElasticIndexReadContext.handleStreamMore, hit]
  | some it =>
    match streams with
    | [] => simp [ElasticIndexReadContext.handleStreamMore, hit]
    | [s] => simp at h
    | a :: b :: l => simp [ElasticIndexReadContext.handleStreamMore, hit]

theorem handleStreamMore_done (c : ElasticIndexReadContext)
    (it : ElasticIndexTupleRangeIterator) (s : TupleOutputStream)
    (ps : List Int) (hit : c.m_iter = some it)
    (hd : it.tuples.drop it.pos = []) :
    c.handleStreamMore [s] ps =
      ⟨{ c with m_materialized := true }, [s], ps ++ [s.position], 0⟩ := by
  simp [ElasticIndexReadContext.handleStreamMore, hit, hd]

theorem handleStreamMore_drain (c : ElasticIndexReadContext)
    (it : ElasticIndexTupleRangeIterator) (s : TupleOutputStream)
    (ps : List Int) (t : TableTuple) (rest : List TableTuple)
    (hit : c.m_iter = some it)
    (hd : it.tuples.drop it.pos = t :: rest) :
    c.handleStreamMore [s] ps =
      ⟨{ c with
            m_iter := some { it with
              pos := it.pos + 1
                + (streamLoop { s with opened := true } t rest).2.1 }
            m_materialized :=
              if (streamLoop { s with opened := true } t rest).2.2 ≤ 0
              then true else c.m_materialized },
        [(streamLoop { s with opened := true } t rest).1],
        ps ++ [(streamLoop { s with opened := true } t rest).1.position],
        (streamLoop { s with opened := true } t rest).2.2⟩ := by
  simp [ElasticIndexReadContext.handleStreamMore, hit, hd]

/-- A drain call on a fresh stream with an exhausted iterator: result 0, the
untouched fresh stream handed back, its (zero) position recorded. -/
theorem handleStreamMore_fresh_done (c : ElasticIndexReadContext)
    (it : ElasticIndexTupleRangeIterator) (cap : Nat)
    (hit : c.m_iter = some it) (hd : it.tuples.drop it.pos = []) :
    c.handleStreamMore [freshStream cap] [] =
      ⟨{ c with m_materialized := true }, [freshStream cap],
        [(freshStream cap).position], 0⟩ := by
  have hs := handleStreamMore_done c it (freshStream cap) [] hit hd
  simpa using hs

/-- A drain call on a fresh stream with tuples still to yield: writes `t`
and a prefix of `rest` of some length `k`, advances the iterator past the
written tuples, records the stream position, and returns 0 (having
consumed all of `rest`) or 1. -/
theorem handleStreamMore_fresh_drain (c : ElasticIndexReadContext)
    (it : ElasticIndexTupleRangeIterator) (cap : Nat) (t : TableTuple)
    (rest : List TableTuple) (hit : c.m_iter = some it)
    (hd : it.tuples.drop it.pos = t :: rest) :
    ∃ (k : Nat) (r : Int) (s1 : TupleOutputStream),
      c.handleStreamMore [freshStream cap] [] =
        ⟨{ c with
              m_iter := some { it with pos := it.pos + 1 + k }
              m_materialized := if r ≤ 0 then true else c.m_materialized },
          [s1], [s1.position], r⟩ ∧
      s1.rows = t :: rest.take k ∧
      k ≤ rest.length ∧ (r = 0 ∨ r = 1) ∧ (r = 0 → k = rest.length) := by
  obtain ⟨hrows, hk, hr, hdone⟩ :=
    streamLoop_spec rest { freshStream cap with opened := true } t
  refine ⟨(streamLoop { freshStream cap with opened := true } t rest).2.1,
    (streamLoop { freshStream cap with opened := true } t rest).2.2,
    (streamLoop { freshStream cap with opened := true } t rest).1,
    ?_, ?_, hk, hr, hdone⟩
  · have hs := handleStreamMore_drain c it (freshStream cap) [] t rest hit hd
    simpa using hs
  · simpa [freshStream] using hrows

/-- Driving `handleStreamMore` with fresh single buffers until it stops
drains exactly the iterator's undrained suffix, ends with result 0 and a
materialized context — for any buffer capacity, given sufficient fuel. -/
theorem drainRun_spec (cap : Nat) :
    ∀ (fuel : Nat) (c : ElasticIndexReadContext)
      (it : ElasticIndexTupleRangeIterator),
      c.m_iter = some it → it.tuples.length - it.pos < fuel →
      (drainRun cap fuel c).1.flatten = it.tuples.drop it.pos ∧
      (drainRun cap fuel c).2.2 = 0 ∧
      (drainRun cap fuel c).2.1.m_materialized = true := by
  intro fuel
  induction fuel with
  | zero => intro c it hit hf; omega
  | succ fuel ih =>
    intro c it hit hf
    cases hd : it.tuples.drop it.pos with
    | nil =>
      have hs := handleStreamMore_fresh_done c it cap hit hd
      refine ⟨?_, ?_, ?_⟩ <;>
        · simp only [drainRun, hs]
          simp [freshStream]
    | cons t rest =>
      obtain ⟨k, r, s1, hs, hrows, hk, hr, hdone⟩ :=
        handleStreamMore_fresh_drain c it cap t rest hit hd
      have hpos : it.pos < it.tuples.length := by
        by_contra hge
        push_neg at hge
        rw [List.drop_eq_nil_of_le hge] at hd
        exact List.cons_ne_nil t rest hd.symm
      have hrest : it.tuples.drop (it.pos + 1) = rest := by
        rw [← List.drop_drop, hd]
        rfl
      have hrestk : it.tuples.drop (it.pos + 1 + k) = rest.drop k := by
        rw [← List.drop_drop, hrest]
      rcases hr with hr0 | hr1
      · subst hr0
        have hkl := hdone rfl
        refine ⟨?_, ?_, ?_⟩ <;>
          · simp only [drainRun, hs]
            simp [hrows, hkl, hd]
      · subst hr1
        rw [if_neg (by norm_num : ¬ ((1 : Int) ≤ 0))] at hs
        have hmain := ih
          { c with
              m_iter := some { it with pos := it.pos + 1 + k }
              m_materialized := c.m_materialized }
          { it with pos := it.pos + 1 + k }
          rfl (by simp only []; omega)
        refine ⟨?_, ?_, ?_⟩ <;>
          simp only [drainRun, hs, List.headD_cons, List.flatten_cons,
            reduceIte]
        · rw [hmain.1]
          simp only []
          rw [hrestk, hrows]
          simp [List.take_append_drop]
        · exact hmain.2.1
        · exact hmain.2.2

/-- C2: starting from a context whose read activation produced an iterator
over the rows `ts` of the activated range, driving `handleStreamMore` with
fresh single output buffers of any capacity until it stops writes exactly
`ts` — each row exactly once, in order, partitioned across the calls — and
the final call returns 0 while leaving `m_materialized = true`.  Resumption
state is only the iterator position carried inside the context. -/
theorem drain_completeness (cap : Nat) (c : ElasticIndexReadContext)
    (ts : List TableTuple) (h : c.m_iter = some ⟨ts, 0⟩) :
    (drainRun cap (ts.length + 1) c).1.flatten = ts ∧
    (drainRun cap (ts.length + 1) c).2.2 = 0 ∧
    (drainRun cap (ts.length + 1) c).2.1.m_materialized = true := by
  have hmain := drainRun_spec cap (ts.length + 1) c ⟨ts, 0⟩ h
    (by show ts.length - 0 < ts.length + 1; omega)
  simpa using hmain

/-- Witness for C2: capacity 3 forces two drain calls over the three
two-byte rows of `tsW`. -/
theorem drain_completeness_w :
    (drainRun 3 (tsW.length + 1) ctxReadW).1.flatten = tsW ∧
    (drainRun 3 (tsW.length + 1) ctxReadW).2.2 = 0 ∧
    (drainRun 3 (tsW.length + 1) ctxReadW).2.1.m_materialized = true :=
  drain_completeness 3 ctxReadW tsW rfl

/-- C8: `handleStreamMore` with no iterator (read phase never activated) or
with a number of output streams other than one returns -1 and mutates
nothing: same context, untouched streams, no recorded position. -/
theorem streamMore_precondition_errors (c : ElasticIndexReadContext)
    (streams : List TupleOutputStream) (ps : List Int)
    (h : c.m_iter = none ∨ streams.length ≠ 1) :
    c.handleStreamMore streams ps = ⟨c, streams, ps, -1⟩ := by
  rcases h with h | h
  · exact handleStreamMore_noIter c streams ps h
  · exact handleStreamMore_badCount c streams ps h

/-- Witness for C8: an unactivated context with zero buffers, and an
activated context with two buffers. -/
theorem streamMore_precondition_errors_w :
    ctx0W.handleStreamMore [] [] = ⟨ctx0W, [], [], -1⟩ ∧
    ctxReadW.handleStreamMore [freshStream 3, freshStream 3] [] =
      ⟨ctxReadW, [freshStream 3, freshStream 3], [], -1⟩ :=
  ⟨streamMore_precondition_errors ctx0W [] [] (Or.inl rfl),
   streamMore_precondition_errors ctxReadW [freshStream 3, freshStream 3] []
     (Or.inr (by decide))⟩

/-- C10: streaming past "done" — an activated context whose iterator is
already exhausted and which is already materialized — returns 0 again,
leaves the context and the stream untouched (the stream is never opened, no
row is written), and still appends the stream's current position. -/
theorem streamMore_after_done (c : ElasticIndexReadContext)
    (it : ElasticIndexTupleRangeIterator) (s : TupleOutputStream)
    (ps : List Int) (hit : c.m_iter = some it)
    (hex : it.tuples.length ≤ it.pos) (hm : c.m_materialized = true) :
    c.handleStreamMore [s] ps = ⟨c, [s], ps ++ [s.position], 0⟩ := by
  have hd : it.tuples.drop it.pos = [] := List.drop_eq_nil_of_le hex
  have hs := handleStreamMore_done c it s ps hit hd
  have hctx : ({ c with m_materialized := true } : ElasticIndexReadContext)
      = c := by
    cases c
    simp_all
  rw [hs, hctx]

/-- Witness for C10 on the drained context `ctxMatW`. -/
theorem streamMore_after_done_w :
    ctxMatW.handleStreamMore [freshStream 5] [] =
      ⟨ctxMatW, [freshStream 5], [] ++ [(freshStream 5).position], 0⟩ :=
  streamMore_after_done ctxMatW ⟨tsW, 3⟩ (freshStream 5) [] rfl
    (by decide) rfl

/-- C3: a clear activation on a context that was never fully drained
(`m_materialized = false`) fails with `ACTIVATION_FAILED`, deletes nothing
(no deletion events) and leaves the context unchanged — whatever the
`reactivate` flag and the index state. -/
theorem clear_before_materialized_fails (c : ElasticIndexReadContext)
    (re : Bool) (hm : c.m_materialized = false) :
    c.handleActivation TableStreamType.TABLE_STREAM_ELASTIC_INDEX_CLEAR re =
      some ⟨c, ActivationReturnCode.ACTIVATION_FAILED, []⟩ := by
  by_cases hidx : c.surgeon.hasIndex = false
      ∨ c.surgeon.indexingComplete = false <;>
    simp [ElasticIndexReadContext.handleActivation, hidx, hm]

/-- Witness for C3 on the unactivated context. -/
theorem clear_before_materialized_fails_w :
    ctx0W.handleActivation TableStreamType.TABLE_STREAM_ELASTIC_INDEX_CLEAR
        false =
      some ⟨ctx0W, ActivationReturnCode.ACTIVATION_FAILED, []⟩ :=
  clear_before_materialized_fails ctx0W false rfl

/-- C6: a clear activation on a materialized context (with a live iterator
and a complete index) succeeds and synchronously runs the deletion
coordinator: token acquired first, iterator reset, every tuple of the range
deleted in order, index entries erased, token released last. -/
theorem clear_activation_runs_deletion (c : ElasticIndexReadContext)
    (it : ElasticIndexTupleRangeIterator) (re : Bool)
    (hm : c.m_materialized = true) (hit : c.m_iter = some it)
    (hidx : c.surgeon.hasIndex = true)
    (hcomp : c.surgeon.indexingComplete = true) :
    c.handleActivation TableStreamType.TABLE_STREAM_ELASTIC_INDEX_CLEAR re =
      some ⟨{ c with m_iter := some { it with pos := it.tuples.length } },
        ActivationReturnCode.ACTIVATION_SUCCEEDED,
        [DeleteEvent.acquireBulkDeleteToken, DeleteEvent.resetIterator]
          ++ it.tuples.map DeleteEvent.deleteTuple
          ++ [DeleteEvent.eraseIndexEntries,
              DeleteEvent.releaseBulkDeleteToken]⟩ := by
  simp [ElasticIndexReadContext.handleActivation,
    ElasticIndexReadContext.deleteStreamedTuples, hm, hit, hidx, hcomp]

/-- Witness for C6 on the drained context `ctxMatW`. -/
theorem clear_activation_runs_deletion_w :
    ctxMatW.handleActivation TableStreamType.TABLE_STREAM_ELASTIC_INDEX_CLEAR
        false =
      some ⟨{ ctxMatW with
            m_iter := some ⟨tsW, tsW.length⟩ },
        ActivationReturnCode.ACTIVATION_SUCCEEDED,
        [DeleteEvent.acquireBulkDeleteToken, DeleteEvent.resetIterator]
          ++ tsW.map DeleteEvent.deleteTuple
          ++ [DeleteEvent.eraseIndexEntries,
              DeleteEvent.releaseBulkDeleteToken]⟩ :=
  clear_activation_runs_deletion ctxMatW ⟨tsW, 3⟩ false rfl rfl rfl rfl

/-- `deleteStreamedTuples` never changes the materialization flag. -/
theorem deleteStreamedTuples_materialized (c : ElasticIndexReadContext)
    (c2 : ElasticIndexReadContext) (evs : List DeleteEvent)
    (h : c.deleteStreamedTuples = some (c2, evs)) :
    c2.m_materialized = c.m_materialized := by
  cases hit : c.m_iter with
  | none => simp [ElasticIndexReadContext.deleteStreamedTuples, hit] at h
  | some it =>
    simp [ElasticIndexReadContext.deleteStreamedTuples, hit] at h
    rw [← h.1]

/-- `handleActivation` never changes the materialization flag, whatever the
stream type, flag and outcome. -/
theorem handleActivation_materialized (c : ElasticIndexReadContext)
    (st : TableStreamType) (re : Bool) (res : ActivationResult)
    (h : c.handleActivation st re = some res) :
    res.ctx.m_materialized = c.m_materialized := by
  unfold ElasticIndexReadContext.handleActivation at h
  split at h
  · simp at h; rw [← h]
  · split at h
    · simp at h; rw [← h]
    · split at h
      · split at h
        · simp at h; rw [← h]
        · simp at h; rw [← h]
      · split at h
        · split at h
          · simp at h; rw [← h]
          · split at h
            · cases h
            · simp at h
              rw [← h]
              exact deleteStreamedTuples_materialized c _ _ (by assumption)
        · simp at h; rw [← h]

/-- C5: the materialization flag starts false at construction; every
activation (including a successful clear) and `deleteStreamedTuples`
preserve it; `handleStreamMore` sets it to true exactly on a 0 (done)
result and leaves it unchanged on every other result — so it transitions
false→true at most once, only when the drain loop observes exhaustion, and
is never reset.  (`handleDeactivation` reads nothing but the stream type,
so it cannot touch the flag.) -/
theorem materialized_flag_invariant :
    (∀ (sg : PersistentTableSurgeon) (preds : List String),
      (ElasticIndexReadContext.construct sg preds).m_materialized = false) ∧
    (∀ (c : ElasticIndexReadContext) (st : TableStreamType) (re : Bool)
        (res : ActivationResult),
      c.handleActivation st re = some res →
      res.ctx.m_materialized = c.m_materialized) ∧
    (∀ (c : ElasticIndexReadContext) (streams : List TupleOutputStream)
        (ps : List Int),
      ((c.handleStreamMore streams ps).result = 0 →
        (c.handleStreamMore streams ps).ctx.m_materialized = true) ∧
      ((c.handleStreamMore streams ps).result ≠ 0 →
        (c.handleStreamMore streams ps).ctx.m_materialized
          = c.m_materialized)) ∧
    (∀ (c : ElasticIndexReadContext) (c2 : ElasticIndexReadContext)
        (evs : List DeleteEvent),
      c.deleteStreamedTuples = some (c2, evs) →
      c2.m_materialized = c.m_materialized) := by
  refine ⟨fun sg preds => rfl, handleActivation_materialized, ?_,
    deleteStreamedTuples_materialized⟩
  intro c streams ps
  match hit : c.m_iter with
  | none =>
    rw [handleStreamMore_noIter c streams ps hit]
    constructor
    · intro h0; simp at h0
    · intro _; rfl
  | some it =>
    match streams with
    | [] =>
      rw [handleStreamMore_badCount c [] ps (by simp)]
      constructor
      · intro h0; simp at h0
      · intro _; rfl
    | a :: b :: l =>
      rw [handleStreamMore_badCount c (a :: b :: l) ps (by simp)]
      constructor
      · intro h0; simp at h0
      · intro _; rfl
    | [s] =>
      cases hd : it.tuples.drop it.pos with
      | nil =>
        rw [handleStreamMore_done c it s ps hit hd]
        exact ⟨fun _ => rfl, fun h0 => absurd rfl h0⟩
      | cons t rest =>
        rw [handleStreamMore_drain c it s ps t rest hit hd]
        obtain ⟨hrows, hk, hr, hdone⟩ :=
          streamLoop_spec rest { s with opened := true } t
        rcases hr with h0 | h1
        · rw [h0]
          exact ⟨fun _ => by norm_num, fun hne => absurd rfl hne⟩
        · rw [h1]
          constructor
          · intro h0; norm_num at h0
          · intro _
            show (if (1 : Int) ≤ 0 then true else c.m_materialized)
              = c.m_materialized
            norm_num

/-- Witness for C5: the flag survives a successful read activation of the
concrete context `ctx0W` unchanged. -/
theorem materialized_flag_invariant_w :
    ctxReadW.m_materialized = ctx0W.m_materialized :=
  materialized_flag_invariant.2.1 ctx0W
    TableStreamType.TABLE_STREAM_ELASTIC_INDEX_READ false
    ⟨ctxReadW, ActivationReturnCode.ACTIVATION_SUCCEEDED, []⟩ rfl

/-- C4: every `handleStreamMore` call returns exactly one of -1, 0 or 1;
-1 exactly on the two precondition errors (no iterator, or a stream count
other than one); a 0 result always leaves `m_materialized = true` and the
iterator exhausted (its cursor at or past the end of the range); and
whenever streaming was attempted (result ≠ -1) the single output
stream's final write position is appended to `retPositions`, whatever the
outcome. -/
theorem streamMore_result_contract (c : ElasticIndexReadContext)
    (streams : List TupleOutputStream) (ps : List Int) :
    ((c.handleStreamMore streams ps).result = -1 ∨
      (c.handleStreamMore streams ps).result = 0 ∨
      (c.handleStreamMore streams ps).result = 1) ∧
    ((c.handleStreamMore streams ps).result = -1 ↔
      c.m_iter = none ∨ streams.length ≠ 1) ∧
    ((c.handleStreamMore streams ps).result = 0 →
      (c.handleStreamMore streams ps).ctx.m_materialized = true) ∧
    ((c.handleStreamMore streams ps).result = 0 →
      ∀ it2, (c.handleStreamMore streams ps).ctx.m_iter = some it2 →
        it2.tuples.length ≤ it2.pos) ∧
    ((c.handleStreamMore streams ps).result ≠ -1 →
      ∃ s1, (c.handleStreamMore streams ps).outputStreams = [s1] ∧
        (c.handleStreamMore streams ps).retPositions
          = ps ++ [s1.position]) := by
  match hit : c.m_iter with
  | none =>
    rw [handleStreamMore_noIter c streams ps hit]
    simp [hit]
  | some it =>
    match streams with
    | [] =>
      rw [handleStreamMore_badCount c [] ps (by simp)]
      simp [hit]
    | a :: b :: l =>
      rw [handleStreamMore_badCount c (a :: b :: l) ps (by simp)]
      simp [hit]
    | [s] =>
      cases hd : it.tuples.drop it.pos with
      | nil =>
        rw [handleStreamMore_done c it s ps hit hd]
        have hex : it.tuples.length ≤ it.pos := List.drop_eq_nil_iff.mp hd
        refine ⟨by norm_num, by simp [hit], fun _ => rfl, ?_,
          fun _ => ⟨_, rfl, rfl⟩⟩
        intro _ it2 h2
        rw [hit] at h2
        cases h2
        exact hex
      | cons t rest =>
        rw [handleStreamMore_drain c it s ps t rest hit hd]
        obtain ⟨hrows, hk, hr, hdone⟩ :=
          streamLoop_spec rest { s with opened := true } t
        have hlen : it.tuples.length = it.pos + 1 + rest.length := by
          have hld := List.length_drop it.pos it.tuples
          rw [hd] at hld
          have hpos : it.pos < it.tuples.length := by
            by_contra hge
            push_neg at hge
            rw [List.drop_eq_nil_of_le hge] at hd
            exact List.cons_ne_nil t rest hd.symm
          simp at hld
          omega
        rcases hr with h0 | h1
        · rw [h0]
          refine ⟨by norm_num, by simp [hit], fun _ => by norm_num, ?_,
            fun _ => ⟨_, rfl, rfl⟩⟩
          intro _ it2 h2
          simp only [Option.some.injEq] at h2
          rw [← h2]
          simp [hdone h0, hlen]
        · rw [h1]
          refine ⟨by norm_num, by simp [hit], fun h0 => by norm_num at h0,
            fun h0 => by norm_num at h0, fun _ => ⟨_, rfl, rfl⟩⟩

/-- Witness for C4 at a concrete activated context and a fresh buffer. -/
theorem streamMore_result_contract_w :
    ((ctxReadW.handleStreamMore [freshStream 3] []).result = -1 ∨
      (ctxReadW.handleStreamMore [freshStream 3] []).result = 0 ∨
      (ctxReadW.handleStreamMore [freshStream 3] []).result = 1) ∧
    ((ctxReadW.handleStreamMore [freshStream 3] []).result = -1 ↔
      ctxReadW.m_iter = none ∨ [freshStream 3].length ≠ 1) ∧
    ((ctxReadW.handleStreamMore [freshStream 3] []).result = 0 →
      (ctxReadW.handleStreamMore [freshStream 3] []).ctx.m_materialized
        = true) ∧
    ((ctxReadW.handleStreamMore [freshStream 3] []).result = 0 →
      ∀ it2, (ctxReadW.handleStreamMore [freshStream 3] []).ctx.m_iter
          = some it2 →
        it2.tuples.length ≤ it2.pos) ∧
    ((ctxReadW.handleStreamMore [freshStream 3] []).result ≠ -1 →
      ∃ s1, (ctxReadW.handleStreamMore [freshStream 3] []).outputStreams
          = [s1] ∧
        (ctxReadW.handleStreamMore [freshStream 3] []).retPositions
          = [] ++ [s1.position]) :=
  streamMore_result_contract ctxReadW [freshStream 3] []

/-- C9: `handleDeactivation` keeps the context alive (true) for a read
stream, allows discarding it (false) for a clear stream, and for every
other stream type raises the fatal exception (modelled `none`) instead of
returning a value. -/
theorem deactivation_contract :
    ElasticIndexReadContext.handleDeactivation
        TableStreamType.TABLE_STREAM_ELASTIC_INDEX_READ = some true ∧
    ElasticIndexReadContext.handleDeactivation
        TableStreamType.TABLE_STREAM_ELASTIC_INDEX_CLEAR = some false ∧
    ∀ st : TableStreamType,
      st ≠ TableStreamType.TABLE_STREAM_ELASTIC_INDEX_READ →
      st ≠ TableStreamType.TABLE_STREAM_ELASTIC_INDEX_CLEAR →
      ElasticIndexReadContext.handleDeactivation st = none := by
  refine ⟨rfl, rfl, ?_⟩
  intro st h1 h2
  cases st <;> simp_all [ElasticIndexReadContext.handleDeactivation]

/-- Witness for C9's fatal branch at the snapshot stream type. -/
theorem deactivation_contract_w :
    ElasticIndexReadContext.handleDeactivation
      TableStreamType.TABLE_STREAM_SNAPSHOT = none :=
  deactivation_contract.2.2 TableStreamType.TABLE_STREAM_SNAPSHOT
    (by decide) (by decide)

/-- C7: `parseHashRange` succeeds exactly on a one-element predicate list
whose string splits into exactly two colon-delimited parts, each a valid
decimal signed 64-bit integer, returning that `(low, high)` pair; every
other shape fails with a returned error (`none`, never a throw); and no
ordering check between low and high is performed (`"20:10"` parses). -/
theorem parseHashRange_contract :
    (∀ (preds : List String) (r : ElasticIndexHashRange),
      parseHashRange preds = some r ↔
        ∃ p lo hi, preds = [p] ∧ splitToTwoString p ':' = [lo, hi] ∧
          parseInt64 lo = some r.rFrom ∧ parseInt64 hi = some r.rTo) ∧
    parseHashRange ["10:20"] = some ⟨10, 20⟩ ∧
    parseHashRange ["20:10"] = some ⟨20, 10⟩ ∧
    parseHashRange ["abc:20"] = none ∧
    parseHashRange ["10"] = none ∧
    parseHashRange ["10:20:30"] = none ∧
    parseHashRange [] = none ∧
    parseHashRange ["1:2", "3:4"] = none := by
  refine ⟨?_, rfl, rfl, rfl, rfl, rfl, rfl, rfl⟩
  intro preds r
  constructor
  · intro h
    obtain ⟨p, rfl⟩ : ∃ p, preds = [p] := by
      cases preds with
      | nil => simp [parseHashRange] at h
      | cons a l =>
        cases l with
        | nil => exact ⟨a, rfl⟩
        | cons b l2 => simp [parseHashRange] at h
    match hsp : splitToTwoString p ':' with
    | [] => simp [parseHashRange, hsp] at h
    | [x] => simp [parseHashRange, hsp] at h
    | x :: y :: z :: l => simp [parseHashRange, hsp] at h
    | [lo, hi] =>
      match hlo : parseInt64 lo with
      | none => simp [parseHashRange, hsp, hlo] at h
      | some lv =>
        match hhi : parseInt64 hi with
        | none => simp [parseHashRange, hsp, hlo, hhi] at h
        | some hv =>
          have hr : r = ⟨lv, hv⟩ := by
            simp [parseHashRange, hsp, hlo, hhi] at h
            exact h.symm
          subst hr
          exact ⟨p, lo, hi, rfl, hsp, hlo, hhi⟩
  · rintro ⟨p, lo, hi, rfl, hsplit, hlo, hhi⟩
    cases r
    simp [parseHashRange, hsplit, hlo, hhi]

/-- Counterexample to C1: on the concrete context `ctx0W` a first read
activation with `reactivate = false` succeeds, and a second read activation
on the resulting context, again with `reactivate = false`, also returns
`ACTIVATION_SUCCEEDED` — not `ACTIVATION_FAILED` as the claim states.  The
code guards re-activation only by the caller-supplied `reactivate` flag, not
by the context's own state. -/
theorem read_reactivation_cex :
    ((ctx0W.handleActivation
        TableStreamType.TABLE_STREAM_ELASTIC_INDEX_READ false).map
      (fun res => res.code)
      = some ActivationReturnCode.ACTIVATION_SUCCEEDED) ∧
    (((ctx0W.handleActivation
        TableStreamType.TABLE_STREAM_ELASTIC_INDEX_READ false).bind
        (fun res => res.ctx.handleActivation
          TableStreamType.TABLE_STREAM_ELASTIC_INDEX_READ false)).map
      (fun res => res.code)
      = some ActivationReturnCode.ACTIVATION_SUCCEEDED) ∧
    ActivationReturnCode.ACTIVATION_SUCCEEDED
      ≠ ActivationReturnCode.ACTIVATION_FAILED :=
  ⟨rfl, rfl, by decide⟩

/-- C1 (amended): rejection of read re-activation is keyed on the
caller-supplied `reactivate` flag, not on the context's state — a read
activation with `reactivate = true` fails (`ACTIVATION_FAILED`) and mutates
nothing on every context, while a second read activation with
`reactivate = false` on a context whose first read activation succeeded
succeeds again, re-creating the iterator. -/
theorem read_reactivation_amended :
    (∀ c : ElasticIndexReadContext,
      c.handleActivation TableStreamType.TABLE_STREAM_ELASTIC_INDEX_READ true
        = some ⟨c, ActivationReturnCode.ACTIVATION_FAILED, []⟩) ∧
    (∀ (c : ElasticIndexReadContext) (res : ActivationResult),
      c.handleActivation TableStreamType.TABLE_STREAM_ELASTIC_INDEX_READ false
        = some res →
      res.code = ActivationReturnCode.ACTIVATION_SUCCEEDED →
      ∃ res2,
        res.ctx.handleActivation
          TableStreamType.TABLE_STREAM_ELASTIC_INDEX_READ false = some res2 ∧
        res2.code = ActivationReturnCode.ACTIVATION_SUCCEEDED) := by
  constructor
  · intro c
    simp [ElasticIndexReadContext.handleActivation]
  · intro c res h hcode
    by_cases hidx : c.surgeon.hasIndex = false
        ∨ c.surgeon.indexingComplete = false
    · simp [ElasticIndexReadContext.handleActivation, hidx] at h
      rw [← h] at hcode
      simp at hcode
    · cases hp : parseHashRange c.m_predicateStrings with
      | none =>
        simp [ElasticIndexReadContext.handleActivation, hidx, hp] at h
        rw [← h] at hcode
        simp at hcode
      | some range =>
        simp [ElasticIndexReadContext.handleActivation, hidx, hp] at h
        rw [← h]
        refine ⟨⟨{ c with
            m_iter := some ⟨c.surgeon.indexTuples range, 0⟩ },
          ActivationReturnCode.ACTIVATION_SUCCEEDED, []⟩, ?_, rfl⟩
        simp [ElasticIndexReadContext.handleActivation, hidx, hp]

/-- Witness for C1 (amended): the `reactivate = true` rejection applied to
the activated concrete context `ctxReadW`. -/
theorem read_reactivation_amended_w :
    ctxReadW.handleActivation
        TableStreamType.TABLE_STREAM_ELASTIC_INDEX_READ true
      = some ⟨ctxReadW, ActivationReturnCode.ACTIVATION_FAILED, []⟩ :=
  read_reactivation_amended.1 ctxReadW

/-- Witness for C7's characterization at the concrete predicate list
`["10:20"]`. -/
theorem parseHashRange_contract_w :
    parseHashRange ["10:20"]
        = some (⟨10, 20⟩ : ElasticIndexHashRange) ↔
      ∃ p lo hi, ["10:20"] = [p] ∧ splitToTwoString p ':' = [lo, hi] ∧
        parseInt64 lo = some (10 : Int) ∧ parseInt64 hi = some (20 : Int) :=
  parseHashRange_contract.1 ["10:20"] ⟨10, 20⟩
